import Mathlib

/-!
Verification of the S3 object-storage backend adapter (`internal/ctlog/s3.go`)
of the sunlight CT log.

The adapter is shallowly embedded: the pure request-building and
body-transformation logic is translated directly from the Go source, and the
timing-dependent parts of the hedged upload (whether the 75 ms timer fires
before the scope is cancelled, and whether the hedge's result is buffered
before the primary's non-blocking channel check) are an explicit `Schedule`
oracle.  Network outcomes of the two PUT attempts are part of the schedule as
well, since they are decided by the external store.

Go byte slices are modelled as `List Nat`, Go strings as Lean `String`
(Go nil-able `*string` / `*bool` as `Option`).  The gzip codec is Go's
standard library, external to this repository, so it is a parameter
(`GzipCodec`) bundled with the two facts the claims rely on: decompression
inverts compression, and a gzip stream is never empty (RFC 1952 framing is at
least 18 bytes).  `float64` values produced by dividing two nonnegative
integer lengths are modelled exactly by `FloatVal` (a nonnegative rational or
+Inf or NaN); rounding of finite quotients to binary64 is not modelled.
-/

/-- Go strings.HasPrefix s pre: `pre` is a prefix of `s` (byte-wise). -/
def goHasPrefix (s p : String) : Bool := p.data.isPrefixOf s.data

/-- Go strings.TrimPrefix s pre: remove the leading `pre` from `s` when
present, otherwise return `s` unchanged. -/
def goTrimPrefix (s p : String) : String :=
  if goHasPrefix s p then { data := s.data.drop p.data.length } else s

/-- The result of `float64(n) / float64(d)` for natural `n`, `d` under
IEEE-754: division by zero yields +Inf for a positive numerator and NaN for
zero over zero; otherwise the quotient (modelled as the exact rational). -/
inductive FloatVal where
  | finite (q : ℚ)
  | posInf
  | nan
  deriving DecidableEq, Repr

/-- IEEE division `float64(n) / float64(d)` (s3.go line 132 computes
`float64(b.Len()) / float64(len(data))`). -/
def floatDiv (n d : Nat) : FloatVal :=
  if d = 0 then (if n = 0 then FloatVal.nan else FloatVal.posInf)
  else FloatVal.finite ((n : ℚ) / (d : ℚ))

/-- The gzip codec (Go `compress/gzip`, external to this repository):
single-shot compression and decompression, with the two library facts the
adapter relies on. -/
structure GzipCodec where
  compress : List Nat → List Nat
  decompress : List Nat → Option (List Nat)
  /-- gunzip inverts gzip (Go stdlib round-trip). -/
  decompress_compress : ∀ b, decompress (compress b) = some b
  /-- a gzip stream is never empty: RFC 1952 framing (10-byte header plus
  8-byte trailer) is present even for empty input. -/
  compress_ne_nil : ∀ b, (compress b).length ≠ 0

/-- A trivial codec witnessing that `GzipCodec` is inhabited. -/
def idCodec : GzipCodec where
  compress b := 0 :: b
  decompress l := match l with
    | [] => none
    | _ :: t => some t
  decompress_compress _ := rfl
  compress_ne_nil _ := Nat.succ_ne_zero _

/-- The `UploadOptions` value: Go's `*UploadOptions`
appears as `Option UploadOptions` at call sites. -/
structure UploadOptions where
  contentType : String
  compress : Bool
  immutable : Bool
  deriving DecidableEq, Repr

/-- The configuration-relevant state of `S3Backend` (s3.go lines 24-34):
`baseEndpoint` is the client's `BaseEndpoint`, set from the non-empty
`endpoint` constructor argument (s3.go lines 96-98). -/
structure S3Backend where
  bucket : String
  keyPrefix : String
  baseEndpoint : Option String
  deriving DecidableEq, Repr

/-- The constructor `NewS3Backend` sets the client's BaseEndpoint only for a non-empty
endpoint argument (s3.go lines 96-98). -/
def s3BaseEndpoint (endpoint : String) : Option String :=
  if endpoint = "" then none else some endpoint

/-- The fields of the `s3.PutObjectInput` sent on the wire, together with the
per-request `If-Match: ""` header (s3.go lines 141-160). -/
structure PutRequest where
  bucket : String
  key : String
  body : List Nat
  contentLength : Nat
  contentEncoding : Option String
  contentType : String
  cacheControl : Option String
  /-- true when the per-request options function attached
  `If-Match: ""` (s3.go lines 156-159). -/
  ifMatchEmpty : Bool
  deriving DecidableEq, Repr

/-- The per-request options function of `putObject` (s3.go lines 149-160):
reads `opts.Immutable` WITHOUT the `opts != nil` guard used everywhere else,
so a nil `opts` dereferences a nil pointer; `none` models that panic.
Otherwise returns whether `If-Match: ""` is attached, which requires both
`opts.Immutable` and the client's BaseEndpoint being exactly the Tigris
URL. -/
def putIfMatch (opts : Option UploadOptions) (baseEndpoint : Option String) :
    Option Bool :=
  match opts with
  | none => none
  | some o => some (o.immutable && baseEndpoint = some "https://fly.storage.tigris.dev")

/-- How the `Upload` call ends: normally (`ok`/`error`, the Go `error` return)
or by the nil-pointer panic of `putIfMatch`. -/
inductive UploadOutcome where
  | ok
  | error (e : String)
  | panic
  deriving DecidableEq, Repr

/-- The timing oracle for one hedged upload (s3.go lines 162-183).
`hedgeFires`: the 75 ms timer fires before the scope is cancelled, so the
hedge goroutine launches (increments `hedges_total` and issues its PUT).
`hedgeDeliveredBeforeCheck`: the hedge's result is buffered in `hedgeErr`
before the primary's non-blocking `select` runs (meaningful only when the
hedge fired).  `primaryResult` / `hedgeResult` are the outcomes of the two
PUT attempts as decided by the store (`none` = success). -/
structure Schedule where
  hedgeFires : Bool
  hedgeDeliveredBeforeCheck : Bool
  primaryResult : Option String
  hedgeResult : Option String
  deriving DecidableEq, Repr

/-- Lines 189-192 of s3.go: a nil adopted error returns success, a non-nil
one is wrapped with the key (`%q` is modelled as plain quoting). -/
def wrapResult (key : String) : Option String → UploadOutcome
  | none => UploadOutcome.ok
  | some e => UploadOutcome.error ("failed to upload \"" ++ key ++ "\" to S3: " ++ e)

/-- The result adopted by the `select` at s3.go lines 178-183: the hedge's
delivered result when the buffered channel is ready at the non-blocking
check, the primary's otherwise. -/
def uploadAdopted (sch : Schedule) : Option String :=
  if sch.hedgeFires && sch.hedgeDeliveredBeforeCheck then sch.hedgeResult
  else sch.primaryResult

/-- Everything observable about one `Upload` call: the outcome, the PUT
request both attempts send (`none` when the call panics before building one),
and the metric updates. -/
structure UploadTrace where
  outcome : UploadOutcome
  wireRequest : Option PutRequest
  compressRatioObs : Option FloatVal
  uploadSizeObs : Option Nat
  hedgesTotalInc : Nat
  hedgeWinsInc : Nat
  deriving DecidableEq, Repr

/-- The operation `(*S3Backend).Upload` (s3.go lines 116-193), for one call under schedule
`sch`.  Content type defaults to `application/octet-stream` (lines 118-121);
compression replaces the body, observes the ratio and sets
`content-encoding: gzip` (lines 122-135); `cache-control` is set for
immutable uploads (lines 136-139); both the primary attempt and the hedge
send the same `PutRequest` (lines 140-161); the hedge fires after 75 ms
unless cancelled, incrementing `hedges_total` (lines 164-176); the primary's
non-blocking check adopts the hedge's result and increments
`hedges_successful_total` exactly when the hedge has already delivered
(lines 177-183); `upload_size_bytes` observes the final body length
(line 188); an error is wrapped with the key (lines 189-192). -/
def uploadRun (c : GzipCodec) (s : S3Backend) (key : String) (data : List Nat)
    (opts : Option UploadOptions) (sch : Schedule) : UploadTrace :=
  let contentType : String := match opts with
    | some o => if o.contentType ≠ "" then o.contentType else "application/octet-stream"
    | none => "application/octet-stream"
  let doCompress : Bool := match opts with
    | some o => o.compress
    | none => false
  let ratioObs : Option FloatVal :=
    if doCompress then some (floatDiv (c.compress data).length data.length) else none
  let body : List Nat := if doCompress then c.compress data else data
  let contentEncoding : Option String := if doCompress then some "gzip" else none
  let cacheControl : Option String := match opts with
    | some o => if o.immutable then some "public, max-age=604800, immutable" else none
    | none => none
  match putIfMatch opts s.baseEndpoint with
  | none =>
      { outcome := UploadOutcome.panic
        wireRequest := none
        compressRatioObs := ratioObs
        uploadSizeObs := none
        hedgesTotalInc := 0
        hedgeWinsInc := 0 }
  | some ifm =>
      let req : PutRequest :=
        { bucket := s.bucket
          key := s.keyPrefix ++ key
          body := body
          contentLength := body.length
          contentEncoding := contentEncoding
          contentType := contentType
          cacheControl := cacheControl
          ifMatchEmpty := ifm }
      let launched := sch.hedgeFires
      let delivered := sch.hedgeFires && sch.hedgeDeliveredBeforeCheck
      { outcome := wrapResult key (uploadAdopted sch)
        wireRequest := some req
        compressRatioObs := ratioObs
        uploadSizeObs := some body.length
        hedgesTotalInc := if launched then 1 else 0
        hedgeWinsInc := if delivered then 1 else 0 }

/-- The store's reply to a GET: body plus `content-encoding` header. -/
structure GetResponse where
  body : List Nat
  contentEncoding : Option String
  deriving DecidableEq, Repr

/-- The `s3.GetObjectInput` of `Fetch` (s3.go lines 196-199). -/
structure GetRequest where
  bucket : String
  key : String
  deriving DecidableEq, Repr

/-- Request built by `(*S3Backend).Fetch` (s3.go lines 196-199). -/
def getRequest (s : S3Backend) (key : String) : GetRequest :=
  { bucket := s.bucket, key := s.keyPrefix ++ key }

/-- Body handling of `(*S3Backend).Fetch` (s3.go lines 207-218): when the
response's `content-encoding` is `gzip` the body is read through a gzip
decoder (a parse failure is an error), otherwise it is read as is. -/
def fetchRun (c : GzipCodec) (key : String) (resp : GetResponse) :
    Except String (List Nat) :=
  if resp.contentEncoding = some "gzip" then
    match c.decompress resp.body with
    | none => Except.error ("failed to decompress \"" ++ key ++ "\" from S3")
    | some d => Except.ok d
  else Except.ok resp.body

/-- The `s3.ListObjectsV2Input` of `List` (s3.go lines 222-225). -/
structure ListRequest where
  bucket : String
  pre : String
  deriving DecidableEq, Repr

/-- Request built by `(*S3Backend).List` (s3.go lines 222-225). -/
def listRequest (s : S3Backend) (pre : String) : ListRequest :=
  { bucket := s.bucket, pre := s.keyPrefix ++ pre }

/-- The store's reply to ListObjectsV2: object keys (`*string`, hence
nil-able) and the `*bool` IsTruncated flag. -/
structure ListResponse where
  contents : List (Option String)
  isTruncated : Option Bool
  deriving DecidableEq, Repr

/-- The loop of `(*S3Backend).List` (s3.go lines 233-243): each entry must
have a non-nil key beginning with `keyPrefix + prefix`, and is returned with
`keyPrefix` stripped. -/
def collectKeys (kp pre : String) : List (Option String) → Except String (List String)
  | [] => Except.ok []
  | none :: _ => Except.error ("failed to list \"" ++ pre ++ "\" from S3: nil key")
  | some key :: rest =>
      if goHasPrefix key (kp ++ pre) then
        match collectKeys kp pre rest with
        | Except.error e => Except.error e
        | Except.ok keys => Except.ok (goTrimPrefix key kp :: keys)
      else
        Except.error ("failed to list \"" ++ pre ++ "\" from S3: strange response \"" ++ key ++ "\"")

/-- The operation `(*S3Backend).List` applied to the store's response (s3.go lines
233-247): the key loop, then failure when `IsTruncated` is non-nil and
true. -/
def listRun (s : S3Backend) (pre : String) (out : ListResponse) :
    Except String (List String) :=
  match collectKeys s.keyPrefix pre out.contents with
  | Except.error e => Except.error e
  | Except.ok keys =>
      if out.isTruncated = some true then
        Except.error ("failed to list \"" ++ pre ++ "\" from S3: response truncated")
      else Except.ok keys

/-- The `s3.CopyObjectInput` of `Copy` (s3.go lines 251-255). -/
structure CopyRequest where
  bucket : String
  copySource : String
  key : String
  deriving DecidableEq, Repr

/-- Request built by `(*S3Backend).Copy` (s3.go lines 251-255). -/
def copyRequest (s : S3Backend) (src dst : String) : CopyRequest :=
  { bucket := s.bucket
    copySource := s.bucket ++ "/" ++ s.keyPrefix ++ src
    key := s.keyPrefix ++ dst }

/-- The `s3.DeleteObjectInput` of `Delete` (s3.go lines 265-268). -/
structure DeleteRequest where
  bucket : String
  key : String
  deriving DecidableEq, Repr

/-- Request built by `(*S3Backend).Delete` (s3.go lines 265-268). -/
def deleteRequest (s : S3Backend) (key : String) : DeleteRequest :=
  { bucket := s.bucket, key := s.keyPrefix ++ key }

/-- One `Upload` call (arguments plus its schedule), for reasoning about the
hedge counters across a sequence of uploads. -/
structure UploadCall where
  backend : S3Backend
  key : String
  data : List Nat
  opts : Option UploadOptions
  sch : Schedule

/-- Traces of a sequence of uploads. -/
def runCalls (c : GzipCodec) (calls : List UploadCall) : List UploadTrace :=
  calls.map (fun u => uploadRun c u.backend u.key u.data u.opts u.sch)

/-- Value of the `s3_hedges_total` counter after a sequence of uploads. -/
def hedgesTotalSum (trs : List UploadTrace) : Nat :=
  (trs.map UploadTrace.hedgesTotalInc).sum

/-- Value of the `s3_hedges_successful_total` counter after a sequence of
uploads. -/
def hedgeWinsSum (trs : List UploadTrace) : Nat :=
  (trs.map UploadTrace.hedgeWinsInc).sum

/-! ### Helper lemmas -/

theorem String.data_append_eq (s t : String) : (s ++ t).data = s.data ++ t.data := by
  cases s; cases t; rfl

theorem goHasPrefix_iff (s p : String) :
    goHasPrefix s p = true ↔ p.data <+: s.data := by
  simp [goHasPrefix, List.isPrefixOf_iff_prefix]

/-- Stripping `kp` from a string that starts with `kp ++ pre` leaves a string
that starts with `pre`. -/
theorem goTrimPrefix_hasPrefix {key kp pre : String}
    (h : goHasPrefix key (kp ++ pre) = true) :
    goHasPrefix (goTrimPrefix key kp) pre = true := by
  rw [goHasPrefix_iff, String.data_append_eq] at h
  have hkp : goHasPrefix key kp = true := by
    rw [goHasPrefix_iff]
    exact (List.prefix_append kp.data pre.data).trans h
  rw [goTrimPrefix, if_pos hkp]
  rw [goHasPrefix_iff]
  obtain ⟨t, ht⟩ := h
  show pre.data <+: List.drop kp.data.length key.data
  rw [← ht, List.append_assoc, List.drop_left]
  exact ⟨t, rfl⟩

theorem wrapResult_ne_panic (k : String) (r : Option String) :
    wrapResult k r ≠ UploadOutcome.panic := by
  cases r <;> simp [wrapResult]

theorem wrapResult_eq_ok_iff (k : String) (r : Option String) :
    wrapResult k r = UploadOutcome.ok ↔ r = none := by
  cases r <;> simp [wrapResult]

/-- Unfolding of `uploadRun` for a non-nil options pointer. -/
theorem uploadRun_some (c : GzipCodec) (s : S3Backend) (k : String) (d : List Nat)
    (o : UploadOptions) (sch : Schedule) :
    uploadRun c s k d (some o) sch =
      { outcome := wrapResult k (uploadAdopted sch)
        wireRequest := some
          { bucket := s.bucket
            key := s.keyPrefix ++ k
            body := if o.compress then c.compress d else d
            contentLength := (if o.compress then c.compress d else d).length
            contentEncoding := if o.compress then some "gzip" else none
            contentType := if o.contentType ≠ "" then o.contentType else "application/octet-stream"
            cacheControl := if o.immutable then some "public, max-age=604800, immutable" else none
            ifMatchEmpty := o.immutable && s.baseEndpoint = some "https://fly.storage.tigris.dev" }
        compressRatioObs := if o.compress then some (floatDiv (c.compress d).length d.length) else none
        uploadSizeObs := some (if o.compress then c.compress d else d).length
        hedgesTotalInc := if sch.hedgeFires then 1 else 0
        hedgeWinsInc := if sch.hedgeFires && sch.hedgeDeliveredBeforeCheck then 1 else 0 } := rfl

/-- Unfolding of `uploadRun` for a nil options pointer. -/
theorem uploadRun_none (c : GzipCodec) (s : S3Backend) (k : String) (d : List Nat)
    (sch : Schedule) :
    uploadRun c s k d none sch =
      { outcome := UploadOutcome.panic
        wireRequest := none
        compressRatioObs := none
        uploadSizeObs := none
        hedgesTotalInc := 0
        hedgeWinsInc := 0 } := rfl

/-! ### Claim theorems -/

/-- Claim C1 counterexample: a concrete upload in which the primary PUT
succeeds (`primaryResult = none`) yet the operation does not return success,
because the hedge fired, failed, and delivered its error before the
primary's non-blocking channel check, so the hedge's error was adopted. -/
theorem C1_counterexample :
    (Schedule.mk true true none (some "hedge failed")).primaryResult = none
    ∧ (uploadRun idCodec (S3Backend.mk "b" "p" none) "k" [1]
        (some (UploadOptions.mk "" false false))
        (Schedule.mk true true none (some "hedge failed"))).outcome
      ≠ UploadOutcome.ok := by
  refine ⟨rfl, ?_⟩
  rw [uploadRun_some]
  simp [uploadAdopted, wrapResult]

/-- Claim C1 (amended): the upload returns success iff the adopted attempt's
result is success, where the adopted attempt is the hedge when the hedge
fired and its result was delivered before the primary's non-blocking check,
and the primary otherwise.  (The claim as stated — success iff at least one
attempt succeeds, and primary success always yields success — is refuted by
the counterexample above.) -/
theorem C1_amended_ok_iff_adopted_ok (c : GzipCodec) (s : S3Backend)
    (k : String) (d : List Nat) (o : UploadOptions) (sch : Schedule) :
    (uploadRun c s k d (some o) sch).outcome = UploadOutcome.ok ↔
      (if sch.hedgeFires && sch.hedgeDeliveredBeforeCheck then sch.hedgeResult
       else sch.primaryResult) = none := by
  rw [uploadRun_some]
  exact wrapResult_eq_ok_iff k (uploadAdopted sch)

/-- Claim C3: for an upload with `options.immutable` set, the PUT carries
`cache-control: public, max-age=604800, immutable`, and the `If-Match: ""`
precondition is attached iff the upload is immutable AND the client's base
endpoint is exactly `https://fly.storage.tigris.dev`; hence other endpoints
and non-immutable uploads carry no precondition. -/
theorem C3_immutable_headers (c : GzipCodec) (s : S3Backend) (k : String)
    (d : List Nat) (o : UploadOptions) (sch : Schedule) :
    ∃ req, (uploadRun c s k d (some o) sch).wireRequest = some req
      ∧ (o.immutable = true →
          req.cacheControl = some "public, max-age=604800, immutable")
      ∧ (req.ifMatchEmpty = true ↔
          (o.immutable = true
            ∧ s.baseEndpoint = some "https://fly.storage.tigris.dev")) := by
  rw [uploadRun_some]
  refine ⟨_, rfl, fun hi => by simp [hi], ?_⟩
  simp [Bool.and_eq_true, decide_eq_true_eq]

/-- Claim C7: `s3_upload_size_bytes` observes exactly the on-the-wire body
length (the compressed length when `compress` is set, the original length
otherwise), and `s3_compress_ratio` observes exactly
`compressed_len / original_len` (IEEE float division) exactly when
`compress` is set. -/
theorem C7_size_metrics (c : GzipCodec) (s : S3Backend) (k : String)
    (d : List Nat) (o : UploadOptions) (sch : Schedule) :
    ((uploadRun c s k d (some o) sch).uploadSizeObs
        = (uploadRun c s k d (some o) sch).wireRequest.map (fun req => req.body.length))
    ∧ ((uploadRun c s k d (some o) sch).uploadSizeObs
        = some (if o.compress then (c.compress d).length else d.length))
    ∧ ((uploadRun c s k d (some o) sch).compressRatioObs
        = if o.compress then some (floatDiv (c.compress d).length d.length) else none) := by
  rw [uploadRun_some]
  refine ⟨by simp, ?_, rfl⟩
  cases hc : o.compress <;> simp [hc]

/-- Claim C8: every PUT sent carries content-type `application/octet-stream`
when `options.content_type` is empty and `options.content_type` otherwise,
and carries `content-encoding: gzip` iff `options.compress` is set; an
upload with absent (nil) options sends no PUT at all (it panics first), so
the default-content-type claim holds vacuously for it. -/
theorem C8_content_headers (c : GzipCodec) (s : S3Backend) (k : String)
    (d : List Nat) (o : UploadOptions) (sch : Schedule) :
    ((uploadRun c s k d (some o) sch).wireRequest.map PutRequest.contentType
        = some (if o.contentType = "" then "application/octet-stream" else o.contentType))
    ∧ ((uploadRun c s k d (some o) sch).wireRequest.map PutRequest.contentEncoding
        = some (if o.compress then some "gzip" else none))
    ∧ (uploadRun c s k d none sch).wireRequest = none := by
  rw [uploadRun_some]
  refine ⟨?_, by simp, rfl⟩
  rcases eq_or_ne o.contentType "" with h | h <;> simp [h]

/-- Claim C9: `Upload` is not total for nil options: the per-request options
closure inside `putObject` reads `opts.Immutable` without the nil guard used
by every other read, so an upload with nil options panics once the PUT
attempt executes, while an upload with non-nil options never panics. -/
theorem C9_nil_options_panics (c : GzipCodec) (s : S3Backend) (k : String)
    (d : List Nat) (sch : Schedule) :
    (uploadRun c s k d none sch).outcome = UploadOutcome.panic
    ∧ ∀ o : UploadOptions,
        (uploadRun c s k d (some o) sch).outcome ≠ UploadOutcome.panic := by
  refine ⟨rfl, fun o => ?_⟩
  rw [uploadRun_some]
  exact wrapResult_ne_panic k (uploadAdopted sch)

/-- Claim C10: compressing an empty body observes
`compressed_len / 0 = +Inf` on `s3_compress_ratio` (the gzip stream of empty
input is non-empty), and the upload still proceeds, with the gzipped empty
stream as the on-the-wire body. -/
theorem C10_empty_body_ratio_posInf (c : GzipCodec) (s : S3Backend)
    (k : String) (o : UploadOptions) (sch : Schedule) (hc : o.compress = true) :
    (uploadRun c s k [] (some o) sch).compressRatioObs = some FloatVal.posInf
    ∧ (uploadRun c s k [] (some o) sch).wireRequest.map PutRequest.body
        = some (c.compress [])
    ∧ (uploadRun c s k [] (some o) sch).outcome ≠ UploadOutcome.panic := by
  rw [uploadRun_some]
  refine ⟨?_, by simp [hc], wrapResult_ne_panic k (uploadAdopted sch)⟩
  simp [hc, floatDiv, c.compress_ne_nil []]

/-- Witness for C10 at a concrete input: with the inhabiting codec, an empty
compressed upload observes +Inf. -/
theorem C10_witness :
    (UploadOptions.mk "" true false).compress = true
    ∧ (uploadRun idCodec (S3Backend.mk "b" "p" none) "k" []
        (some (UploadOptions.mk "" true false))
        (Schedule.mk false false none none)).compressRatioObs
      = some FloatVal.posInf :=
  ⟨rfl, (C10_empty_body_ratio_posInf idCodec (S3Backend.mk "b" "p" none) "k"
      (UploadOptions.mk "" true false) (Schedule.mk false false none none) rfl).1⟩

theorem hedgeWinsInc_le_hedgesTotalInc (c : GzipCodec) (s : S3Backend)
    (k : String) (d : List Nat) (opts : Option UploadOptions) (sch : Schedule) :
    (uploadRun c s k d opts sch).hedgeWinsInc
      ≤ (uploadRun c s k d opts sch).hedgesTotalInc := by
  cases opts with
  | none => exact Nat.le_refl 0
  | some o =>
      rw [uploadRun_some]
      cases hf : sch.hedgeFires <;> cases hd : sch.hedgeDeliveredBeforeCheck <;>
        simp [hf, hd]

theorem winsSum_le_totalSum (trs : List UploadTrace)
    (h : ∀ tr ∈ trs, tr.hedgeWinsInc ≤ tr.hedgesTotalInc) :
    hedgeWinsSum trs ≤ hedgesTotalSum trs := by
  induction trs with
  | nil => exact Nat.le_refl 0
  | cons t ts ih =>
      simp only [hedgeWinsSum, hedgesTotalSum, List.map_cons, List.sum_cons]
      exact Nat.add_le_add (h t (List.mem_cons_self t ts))
        (ih fun tr htr => h tr (List.mem_cons_of_mem t htr))

/-- Claim C2: in one upload, `hedges_total` is incremented exactly when the
75 ms timer fires before cancellation (every launched hedge);
`hedges_successful_total` is incremented exactly when the hedge's delivered
result is adopted, in which case the caller's result is the wrap of the
hedge's result; and over any sequence of uploads the running counters
satisfy `hedges_successful_total ≤ hedges_total` at every point in time. -/
theorem C2_hedge_counters (c : GzipCodec) :
    (∀ (s : S3Backend) (k : String) (d : List Nat) (o : UploadOptions)
        (sch : Schedule),
      (uploadRun c s k d (some o) sch).hedgesTotalInc
          = (if sch.hedgeFires then 1 else 0)
      ∧ (uploadRun c s k d (some o) sch).hedgeWinsInc
          = (if sch.hedgeFires && sch.hedgeDeliveredBeforeCheck then 1 else 0)
      ∧ ((uploadRun c s k d (some o) sch).hedgeWinsInc = 1 →
          (uploadRun c s k d (some o) sch).outcome = wrapResult k sch.hedgeResult))
    ∧ ∀ (calls : List UploadCall) (n : Nat),
        hedgeWinsSum ((runCalls c calls).take n)
          ≤ hedgesTotalSum ((runCalls c calls).take n) := by
  constructor
  · intro s k d o sch
    rw [uploadRun_some]
    refine ⟨rfl, rfl, fun hw => ?_⟩
    have hw' : (if sch.hedgeFires && sch.hedgeDeliveredBeforeCheck then (1 : Nat)
        else 0) = 1 := hw
    have hd : (sch.hedgeFires && sch.hedgeDeliveredBeforeCheck) = true := by
      by_contra hne
      rw [if_neg hne] at hw'
      exact absurd hw' (by decide)
    show wrapResult k (uploadAdopted sch) = wrapResult k sch.hedgeResult
    rw [uploadAdopted, if_pos hd]
  · intro calls n
    refine winsSum_le_totalSum _ (fun tr htr => ?_)
    have : tr ∈ runCalls c calls := List.mem_of_mem_take htr
    obtain ⟨u, _, rfl⟩ := List.mem_map.mp this
    exact hedgeWinsInc_le_hedgesTotalInc c u.backend u.key u.data u.opts u.sch

/-- Claim C4: for an upload with `compress` set, the stored body is the gzip
stream of the original data with `content-encoding: gzip`, and a fetch whose
response returns exactly the stored body and header transparently gunzips it,
so the round-trip returns the original data. -/
theorem C4_compress_roundtrip (c : GzipCodec) (s : S3Backend) (k : String)
    (d : List Nat) (o : UploadOptions) (sch : Schedule) (req : PutRequest)
    (hreq : (uploadRun c s k d (some o) sch).wireRequest = some req)
    (hc : o.compress = true) :
    req.body = c.compress d
    ∧ req.contentEncoding = some "gzip"
    ∧ fetchRun c k (GetResponse.mk req.body req.contentEncoding)
        = Except.ok d := by
  rw [uploadRun_some] at hreq
  obtain rfl := (Option.some.inj hreq).symm
  refine ⟨by simp [hc], by simp [hc], ?_⟩
  simp [hc, fetchRun, c.decompress_compress d]

/-- Witness for C4 at a concrete input: with the inhabiting codec, fetching
the stored compressed object returns the original bytes. -/
theorem C4_witness :
    (UploadOptions.mk "" true false).compress = true
    ∧ fetchRun idCodec "k" (GetResponse.mk (idCodec.compress [7, 8]) (some "gzip"))
        = Except.ok [7, 8] := by
  refine ⟨rfl, ?_⟩
  have h := C4_compress_roundtrip idCodec (S3Backend.mk "b" "p" none) "k" [7, 8]
      (UploadOptions.mk "" true false) (Schedule.mk false false none none) _ rfl rfl
  exact h.2.2

/-- The key loop fails exactly when some entry is nil or some entry's key
misses the `keyPrefix + prefix` prefix. -/
theorem collectKeys_error_iff (kp pre : String) (l : List (Option String)) :
    (∃ e, collectKeys kp pre l = Except.error e) ↔
      (none ∈ l
        ∨ ∃ k, some k ∈ l ∧ goHasPrefix k (kp ++ pre) = false) := by
  induction l with
  | nil => simp [collectKeys]
  | cons hd tl ih =>
      cases hd with
      | none => simp [collectKeys]
      | some key =>
          by_cases hp : goHasPrefix key (kp ++ pre) = true
          · simp only [collectKeys, hp, if_true]
            cases hrec : collectKeys kp pre tl with
            | error e =>
                simp only [hrec]
                constructor
                · intro _
                  have : ∃ e, collectKeys kp pre tl = Except.error e := ⟨e, hrec⟩
                  rcases ih.mp this with h | ⟨k, hk, hbad⟩
                  · exact Or.inl (List.mem_cons_of_mem _ h)
                  · exact Or.inr ⟨k, List.mem_cons_of_mem _ hk, hbad⟩
                · intro _; exact ⟨e, rfl⟩
            | ok keys =>
                simp only [hrec]
                constructor
                · rintro ⟨e, he⟩; cases he
                · rintro (h | ⟨k, hk, hbad⟩)
                  · rcases List.mem_cons.mp h with h' | h'
                    · cases h'
                    · rcases ih.mpr (Or.inl h') with ⟨e, he⟩
                      rw [hrec] at he; cases he
                  · rcases List.mem_cons.mp hk with h' | h'
                    · rw [Option.some.inj h'] at hbad
                      rw [hp] at hbad; cases hbad
                    · rcases ih.mpr (Or.inr ⟨k, h', hbad⟩) with ⟨e, he⟩
                      rw [hrec] at he; cases he
          · rw [Bool.not_eq_true] at hp
            simp only [collectKeys, hp, Bool.false_eq_true, if_false]
            constructor
            · intro _
              exact Or.inr ⟨key, List.mem_cons_self _ _, hp⟩
            · intro _; exact ⟨_, rfl⟩

/-- On success, every key the loop returns comes from a non-nil entry that
had the full `keyPrefix + prefix` prefix, with `keyPrefix` stripped. -/
theorem collectKeys_ok_mem (kp pre : String) (l : List (Option String))
    (keys : List String) (h : collectKeys kp pre l = Except.ok keys) :
    ∀ k ∈ keys, ∃ wk, some wk ∈ l ∧ goHasPrefix wk (kp ++ pre) = true
      ∧ k = goTrimPrefix wk kp := by
  induction l generalizing keys with
  | nil =>
      obtain rfl := (Except.ok.inj h).symm
      intro k hk; cases hk
  | cons hd tl ih =>
      cases hd with
      | none => cases h
      | some key =>
          by_cases hp : goHasPrefix key (kp ++ pre) = true
          · simp only [collectKeys, hp, if_true] at h
            cases hrec : collectKeys kp pre tl with
            | error e => rw [hrec] at h; cases h
            | ok ks =>
                rw [hrec] at h
                obtain rfl := (Except.ok.inj h).symm
                intro k hk
                rcases List.mem_cons.mp hk with rfl | hk'
                · exact ⟨key, List.mem_cons_self _ _, hp, rfl⟩
                · obtain ⟨wk, hwk, hpw, hkeq⟩ := ih ks hrec k hk'
                  exact ⟨wk, List.mem_cons_of_mem _ hwk, hpw, hkeq⟩
          · rw [Bool.not_eq_true] at hp
            simp only [collectKeys, hp, Bool.false_eq_true, if_false] at h
            cases h

/-- Success of `listRun`: it succeeds iff the key loop succeeds and the response is not
truncated. -/
theorem listRun_ok_iff (s : S3Backend) (pre : String) (out : ListResponse)
    (keys : List String) :
    listRun s pre out = Except.ok keys ↔
      collectKeys s.keyPrefix pre out.contents = Except.ok keys
      ∧ out.isTruncated ≠ some true := by
  rw [listRun]
  cases hrec : collectKeys s.keyPrefix pre out.contents with
  | error e => simp [hrec]
  | ok ks =>
      by_cases ht : out.isTruncated = some true
      · simp [hrec, ht]
      · simp [hrec, ht]

/-- Failure of `listRun`: it fails iff the key loop fails or the response is truncated. -/
theorem listRun_error_iff (s : S3Backend) (pre : String) (out : ListResponse) :
    (∃ e, listRun s pre out = Except.error e) ↔
      ((∃ e, collectKeys s.keyPrefix pre out.contents = Except.error e)
        ∨ out.isTruncated = some true) := by
  rw [listRun]
  cases hrec : collectKeys s.keyPrefix pre out.contents with
  | error e => simp [hrec]
  | ok ks =>
      by_cases ht : out.isTruncated = some true
      · simp [hrec, ht]
      · simp [hrec, ht]

/-- Claim C5: `list(p)` fails exactly when some entry has a nil key, some
key misses the `key_prefix + p` prefix, or the response is truncated; on
success every returned key (the wire key with `key_prefix` stripped) starts
with `p`. -/
theorem C5_list_errors_and_success (s : S3Backend) (pre : String)
    (out : ListResponse) :
    ((∃ e, listRun s pre out = Except.error e) ↔
      (none ∈ out.contents
        ∨ (∃ k, some k ∈ out.contents
            ∧ goHasPrefix k (s.keyPrefix ++ pre) = false)
        ∨ out.isTruncated = some true))
    ∧ ∀ keys, listRun s pre out = Except.ok keys →
        ∀ k ∈ keys, goHasPrefix k pre = true := by
  constructor
  · rw [listRun_error_iff, collectKeys_error_iff]
    exact or_assoc
  · intro keys hok k hk
    obtain ⟨hcoll, -⟩ := (listRun_ok_iff s pre out keys).mp hok
    obtain ⟨wk, -, hpw, rfl⟩ :=
      collectKeys_ok_mem s.keyPrefix pre out.contents keys hcoll k hk
    exact goTrimPrefix_hasPrefix hpw

/-- Claim C6: every operation sends `key_prefix + caller_key` on the wire
(for copy, both the source name and the destination key are prefixed; the
copy source is additionally qualified with the bucket), and every key `list`
returns to the caller is a wire key with `key_prefix` stripped. -/
theorem C6_key_prefixing (c : GzipCodec) (s : S3Backend)
    (k src dst pre : String) (d : List Nat) (o : UploadOptions)
    (sch : Schedule) :
    ((uploadRun c s k d (some o) sch).wireRequest.map PutRequest.key
        = some (s.keyPrefix ++ k))
    ∧ (getRequest s k).key = s.keyPrefix ++ k
    ∧ (listRequest s pre).pre = s.keyPrefix ++ pre
    ∧ (copyRequest s src dst).copySource
        = s.bucket ++ "/" ++ s.keyPrefix ++ src
    ∧ (copyRequest s src dst).key = s.keyPrefix ++ dst
    ∧ (deleteRequest s k).key = s.keyPrefix ++ k
    ∧ ∀ out keys, listRun s pre out = Except.ok keys →
        ∀ key ∈ keys, ∃ wk, some wk ∈ out.contents
          ∧ key = goTrimPrefix wk s.keyPrefix := by
  refine ⟨by rw [uploadRun_some]; rfl, rfl, rfl, rfl, rfl, rfl, ?_⟩
  intro out keys hok key hk
  obtain ⟨hcoll, -⟩ := (listRun_ok_iff s pre out keys).mp hok
  obtain ⟨wk, hwk, -, hkeq⟩ :=
    collectKeys_ok_mem s.keyPrefix pre out.contents keys hcoll key hk
  exact ⟨wk, hwk, hkeq⟩
